import Mathlib

/-!
Verification of the oxidar-url-shortener core (src/token.rs and src/store.rs).

The Rust core is embedded shallowly:

* A Rust `&str` / `String` is a `List Char`; `str::len` counts UTF-8 bytes,
  embedded as `strByteLen` (the sum of the UTF-8 sizes of the characters).
* `Token` (src/token.rs) wraps its character sequence.  `Token::default`
  draws `TOKEN_LENGTH` characters from rand's `Alphanumeric` distribution,
  whose 62-symbol table `GEN_ASCII_STR_CHARSET` is reproduced below; the
  random source is abstracted as a function `Fin TOKEN_LENGTH → Fin 62`
  giving the sampled index of each of the six positions.
* `Url` is opaque to this core (parsing is delegated to the `url` crate);
  it is embedded as an opaque wrapper around its text.  That a `Url` value
  exists at all means it was successfully parsed by the collaborator.
* `Store` (src/store.rs) wraps a `HashMap<Token, Url>`, embedded as an
  association list with insert-replaces-existing-key semantics (`hmInsert`,
  `hmGet`), the standard model of a hash map.
* `register_url` in the source returns `Result<Token>` but has no error
  path (it always returns `Ok(token)`), so it is embedded as returning the
  token and the updated store directly.
* The `eyre` string errors are embedded as the typed errors the spec names:
  the length-mismatch error of `TryFrom<&str>` carries the expected length,
  and `resolve_token` either propagates it or fails with `notFound`.
-/

/-- `Token::TOKEN_LENGTH` (src/token.rs). -/
def TOKEN_LENGTH : Nat := 6

/-- The 62-symbol table of rand's `Alphanumeric` distribution, used by
`Token::default` (src/token.rs): uppercase letters, lowercase letters,
digits. -/
def GEN_ASCII_STR_CHARSET : List Char :=
  String.toList "ABCDEFGHIJKLMNOPQRSTUVWXYZabcdefghijklmnopqrstuvwxyz0123456789"

/-- The charset has exactly 62 symbols. -/
theorem charset_length : GEN_ASCII_STR_CHARSET.length = 62 := rfl

/-- Rust `str::len`: the length of a string in UTF-8 bytes. -/
def strByteLen (s : List Char) : Nat := (s.map Char.utf8Size).sum

/-- `Token` (src/token.rs): a wrapper around its character sequence.
Equality and hashing in the source are derived from the wrapped string. -/
structure Token where
  chars : List Char
deriving DecidableEq

/-- `Token::as_str` (src/token.rs): read-only view of the characters. -/
def Token.as_str (t : Token) : List Char := t.chars

/-- `Token::default` (src/token.rs): six characters drawn from the
`Alphanumeric` table, one per sampled index. -/
def Token.default (samples : Fin TOKEN_LENGTH → Fin 62) : Token :=
  ⟨(List.finRange TOKEN_LENGTH).map fun i =>
    GEN_ASCII_STR_CHARSET.get (Fin.cast charset_length.symm (samples i))⟩

/-- The validation error of `TryFrom<&str> for Token` (src/token.rs):
"Token must be {TOKEN_LENGTH} characters long" — it names the expected
length. -/
structure ValidationError where
  expected : Nat
deriving DecidableEq

/-- `TryFrom<&str> for Token` (src/token.rs): fails iff `value.len()`
(UTF-8 bytes) differs from `TOKEN_LENGTH`; on success wraps the input
unchanged. -/
def Token.try_from (value : List Char) : Except ValidationError Token :=
  if strByteLen value ≠ TOKEN_LENGTH then
    .error ⟨TOKEN_LENGTH⟩
  else
    .ok ⟨value⟩

/-- A parsed URL (the `url::Url` type), opaque to this core; holding a
value of this type means the collaborator's URL parser accepted the text. -/
structure Url where
  text : List Char
deriving DecidableEq

/-- The errors of `Store::resolve_token` (src/store.rs): the propagated
token-validation error, or "Token not found". -/
inductive ResolutionError where
  | invalidToken (e : ValidationError)
  | notFound
deriving DecidableEq

/-- `Store` (src/store.rs): `items: HashMap<Token, Url>`, embedded as an
association list with unique keys. -/
structure Store where
  items : List (Token × Url)
deriving DecidableEq

/-- `HashMap::get`: first (only) binding of the key, if any. -/
def hmGet : List (Token × Url) → Token → Option Url
  | [], _ => none
  | (k, v) :: rest, t => if k = t then some v else hmGet rest t

/-- `HashMap::insert`: replace the binding of the key if present,
otherwise add it. -/
def hmInsert : List (Token × Url) → Token → Url → List (Token × Url)
  | [], k, v => [(k, v)]
  | (k', v') :: rest, k, v =>
    if k' = k then (k, v) :: rest else (k', v') :: hmInsert rest k v

/-- `Store::register_url` (src/store.rs, lines 17-21): generate a token
with `Token::default`, insert the (token, url) pair, return the token.
The source returns `Ok(token)` unconditionally, so the `Result` wrapper
is dropped. -/
def Store.register_url (s : Store) (samples : Fin TOKEN_LENGTH → Fin 62)
    (url : Url) : Token × Store :=
  let token := Token.default samples
  (token, ⟨hmInsert s.items token url⟩)

/-- `Store::resolve_token` (src/store.rs, lines 23-29): parse the input
via `Token::try_from` (propagating its error), then look the token up,
failing with `notFound` on absence. Takes `&self`: no mutation. -/
def Store.resolve_token (s : Store) (token : List Char) :
    Except ResolutionError Url :=
  match Token.try_from token with
  | .error e => .error (.invalidToken e)
  | .ok t =>
    match hmGet s.items t with
    | some u => .ok u
    | none => .error .notFound

/-- The two operations the store exposes; `register` carries the random
samples its `Token::default` call consumes. -/
inductive Op where
  | register (samples : Fin TOKEN_LENGTH → Fin 62) (url : Url)
  | resolve (input : List Char)

/-- The state effect of one operation: `register_url` takes `&mut self`
and updates the map; `resolve_token` takes `&self` and cannot mutate. -/
def Store.applyOp (s : Store) : Op → Store
  | .register samples url => (s.register_url samples url).2
  | .resolve _ => s

/-- `Store::default()`: the empty map. -/
def emptyStore : Store := ⟨[]⟩

/-- Stores reachable from the empty store by register/resolve sequences. -/
inductive Reachable : Store → Prop
  | empty : Reachable emptyStore
  | step {s : Store} (op : Op) : Reachable s → Reachable (s.applyOp op)

/-- A well-formed token: exactly `TOKEN_LENGTH` characters, all from the
62-symbol alphanumeric table. -/
def wfToken (t : Token) : Prop :=
  t.chars.length = TOKEN_LENGTH ∧ ∀ c ∈ t.chars, c ∈ GEN_ASCII_STR_CHARSET

instance (t : Token) : Decidable (wfToken t) := by
  unfold wfToken
  exact inferInstance

/-- Every charset symbol is a single UTF-8 byte and is alphanumeric. -/
theorem charset_utf8_alphanum :
    ∀ c ∈ GEN_ASCII_STR_CHARSET, Char.utf8Size c = 1 ∧ c.isAlphanum = true := by
  decide

/-- The generated token has exactly `TOKEN_LENGTH` characters. -/
theorem default_chars_length (samples : Fin TOKEN_LENGTH → Fin 62) :
    (Token.default samples).chars.length = TOKEN_LENGTH := by
  simp [Token.default]

/-- Every character of a generated token comes from the charset. -/
theorem default_chars_mem (samples : Fin TOKEN_LENGTH → Fin 62) :
    ∀ c ∈ (Token.default samples).chars, c ∈ GEN_ASCII_STR_CHARSET := by
  intro c hc
  simp only [Token.default, List.mem_map] at hc
  obtain ⟨i, _, rfl⟩ := hc
  exact List.get_mem _ _ _

/-- Generated tokens are well formed. -/
theorem default_wf (samples : Fin TOKEN_LENGTH → Fin 62) :
    wfToken (Token.default samples) :=
  ⟨default_chars_length samples, default_chars_mem samples⟩

/-- A string of single-byte characters has as many bytes as characters. -/
theorem byteLen_of_ascii {l : List Char} (h : ∀ c ∈ l, Char.utf8Size c = 1) :
    strByteLen l = l.length := by
  induction l with
  | nil => rfl
  | cons c t ih =>
    simp only [strByteLen, List.map_cons, List.sum_cons, List.length_cons] at *
    rw [h c (List.mem_cons_self c t), ih fun x hx => h x (List.mem_cons_of_mem c hx)]
    omega

/-- A well-formed token's text is exactly `TOKEN_LENGTH` bytes long. -/
theorem wf_byteLen {t : Token} (h : wfToken t) : strByteLen t.chars = TOKEN_LENGTH := by
  rw [byteLen_of_ascii fun c hc => (charset_utf8_alphanum c (h.2 c hc)).1, h.1]

/-- `Token::try_from` succeeds on any input of `TOKEN_LENGTH` bytes. -/
theorem try_from_ok {v : List Char} (h : strByteLen v = TOKEN_LENGTH) :
    Token.try_from v = .ok ⟨v⟩ := by
  simp [Token.try_from, h]

/-- A string with at least one character has at least as many bytes as
characters. -/
theorem byteLen_ge_length (l : List Char) : l.length ≤ strByteLen l := by
  induction l with
  | nil => simp [strByteLen]
  | cons c t ih =>
    simp only [strByteLen, List.map_cons, List.sum_cons, List.length_cons] at *
    have := Char.utf8Size_pos c
    omega

/-- A string containing a multi-byte character has strictly more bytes
than characters. -/
theorem byteLen_gt_of_multibyte {l : List Char} {c : Char} (hc : c ∈ l)
    (h2 : 2 ≤ Char.utf8Size c) : l.length + 1 ≤ strByteLen l := by
  induction l with
  | nil => cases hc
  | cons d t ih =>
    simp only [strByteLen, List.map_cons, List.sum_cons, List.length_cons] at *
    rcases List.mem_cons.mp hc with rfl | hmem
    · have := byteLen_ge_length t
      simp only [strByteLen] at this
      omega
    · have := Char.utf8Size_pos d
      have := ih hmem
      omega

/-- Looking up the key just inserted yields the inserted value. -/
theorem hmGet_insert_self (l : List (Token × Url)) (k : Token) (v : Url) :
    hmGet (hmInsert l k v) k = some v := by
  induction l with
  | nil => simp [hmInsert, hmGet]
  | cons p rest ih =>
    obtain ⟨k', v'⟩ := p
    by_cases h : k' = k
    · simp [hmInsert, hmGet, h]
    · simp [hmInsert, hmGet, h, ih]

/-- Inserting one key leaves the bindings of other keys unchanged. -/
theorem hmGet_insert_ne (l : List (Token × Url)) {k t : Token} (v : Url)
    (h : k ≠ t) : hmGet (hmInsert l k v) t = hmGet l t := by
  induction l with
  | nil => simp [hmInsert, hmGet, h]
  | cons p rest ih =>
    obtain ⟨k', v'⟩ := p
    by_cases hk : k' = k
    · subst hk
      simp [hmInsert, hmGet, h]
    · by_cases ht : k' = t
      · subst ht
        simp [hmInsert, hmGet, hk, Ne.symm h]
      · simp [hmInsert, hmGet, hk, ht, ih]

/-- Every binding after an insert is the new one or an old one. -/
theorem mem_hmInsert {l : List (Token × Url)} {k : Token} {v : Url}
    {p : Token × Url} (h : p ∈ hmInsert l k v) : p = (k, v) ∨ p ∈ l := by
  induction l with
  | nil => simpa [hmInsert] using h
  | cons q rest ih =>
    obtain ⟨k', v'⟩ := q
    by_cases hk : k' = k
    · simp only [hmInsert, hk, if_pos rfl] at h
      rcases List.mem_cons.mp h with rfl | hmem
      · exact Or.inl rfl
      · exact Or.inr (List.mem_cons_of_mem _ hmem)
    · simp only [hmInsert, if_neg hk] at h
      rcases List.mem_cons.mp h with rfl | hmem
      · exact Or.inr (List.mem_cons_self _ _)
      · rcases ih hmem with h | h
        · exact Or.inl h
        · exact Or.inr (List.mem_cons_of_mem _ h)

/-- Every key of a reachable store is a well-formed token: keys are only
ever created by `Token::default` inside `register_url`. -/
theorem reachable_keys_wf {s : Store} (h : Reachable s) :
    ∀ p ∈ s.items, wfToken p.1 := by
  induction h with
  | empty => intro p hp; cases hp
  | step op _ ih =>
    intro p hp
    cases op with
    | resolve input => exact ih p hp
    | register samples url =>
      rcases mem_hmInsert hp with rfl | hmem
      · exact default_wf samples
      · exact ih p hmem

/-- A token that is not well formed is absent from a map whose keys are
all well formed. -/
theorem hmGet_none_of_not_wf {l : List (Token × Url)} {t : Token}
    (hl : ∀ p ∈ l, wfToken p.1) (ht : ¬ wfToken t) : hmGet l t = none := by
  induction l with
  | nil => rfl
  | cons p rest ih =>
    obtain ⟨k, v⟩ := p
    have hk : k ≠ t := by
      intro he
      exact ht (he ▸ hl (k, v) (List.mem_cons_self _ _))
    simp only [hmGet, if_neg hk]
    exact ih fun q hq => hl q (List.mem_cons_of_mem _ hq)

/-- A concrete random source: every position samples index 0. -/
def sampleA : Fin TOKEN_LENGTH → Fin 62 := fun _ => 0

/-- A concrete random source: every position samples index 30. -/
def sampleB : Fin TOKEN_LENGTH → Fin 62 := fun _ => 30

/-- A concrete parsed URL. -/
def urlEx1 : Url := ⟨String.toList "https://example1.com/"⟩

/-- Another concrete parsed URL. -/
def urlEx2 : Url := ⟨String.toList "https://example2.com/"⟩

/-- The store obtained from the empty store by one registration. -/
def storeA : Store := emptyStore.applyOp (Op.register sampleA urlEx1)

/-- C1: for every valid URL `u` and every store state, registering `u` and
then resolving the text of the returned token yields exactly `u`. -/
theorem C1_register_resolve_round_trip (s : Store) (u : Url)
    (samples : Fin TOKEN_LENGTH → Fin 62) :
    ((s.register_url samples u).2).resolve_token
      ((s.register_url samples u).1).as_str = .ok u := by
  show Store.resolve_token ⟨hmInsert s.items (Token.default samples) u⟩
    (Token.default samples).chars = .ok u
  have heta : (⟨(Token.default samples).chars⟩ : Token) = Token.default samples := rfl
  simp only [Store.resolve_token, try_from_ok (wf_byteLen (default_wf samples)),
    heta, hmGet_insert_self]

/-- C3: `Token::try_from` succeeds iff the input is exactly
`TOKEN_LENGTH` (= 6) bytes long; any length mismatch fails with the
validation error naming the expected length, and nothing else fails. -/
theorem C3_parse_succeeds_iff_length_six (s : List Char) :
    (strByteLen s = TOKEN_LENGTH → Token.try_from s = .ok ⟨s⟩) ∧
    (strByteLen s ≠ TOKEN_LENGTH → Token.try_from s = .error ⟨TOKEN_LENGTH⟩) := by
  constructor
  · exact try_from_ok
  · intro h
    simp [Token.try_from, h]

/-- Witness for C3 at concrete inputs: a 6-byte string parses, a 7-byte
string fails with the expected-length error. -/
theorem C3_parse_succeeds_iff_length_six_witness :
    Token.try_from (String.toList "abc123") = .ok ⟨String.toList "abc123"⟩ ∧
    Token.try_from (String.toList "1234567") = .error ⟨TOKEN_LENGTH⟩ :=
  ⟨(C3_parse_succeeds_iff_length_six (String.toList "abc123")).1 (by decide),
   (C3_parse_succeeds_iff_length_six (String.toList "1234567")).2 (by decide)⟩

/-- C4: every generated token has exactly 6 characters, each drawn from
the 62-symbol alphanumeric table (hence alphanumeric). -/
theorem C4_generated_tokens_alphanumeric (samples : Fin TOKEN_LENGTH → Fin 62) :
    (Token.default samples).chars.length = TOKEN_LENGTH ∧
    ∀ c ∈ (Token.default samples).chars,
      c ∈ GEN_ASCII_STR_CHARSET ∧ c.isAlphanum = true := by
  refine ⟨default_chars_length samples, fun c hc => ?_⟩
  have hmem := default_chars_mem samples c hc
  exact ⟨hmem, (charset_utf8_alphanum c hmem).2⟩

/-- C2: starting from the empty store, every sequence of register and
resolve operations preserves the invariant that every key of the mapping
is a well-formed token — exactly 6 characters, all alphanumeric.  (That
every value is a successfully parsed URL is carried by the `Url` type:
values enter the map only as the `Url` argument of `register_url`.) -/
theorem C2_reachable_store_invariant (s : Store) (h : Reachable s) :
    ∀ p ∈ s.items, wfToken p.1 ∧ ∀ c ∈ p.1.chars, c.isAlphanum = true := by
  intro p hp
  have hwf := reachable_keys_wf h p hp
  exact ⟨hwf, fun c hc => (charset_utf8_alphanum c (hwf.2 c hc)).2⟩

/-- Witness for C2: the key of the single entry of a concrete reachable
store is a well-formed token. -/
theorem C2_reachable_store_invariant_witness :
    wfToken (Token.default sampleA) :=
  (C2_reachable_store_invariant storeA
    (Reachable.step (Op.register sampleA urlEx1) Reachable.empty)
    (Token.default sampleA, urlEx1) (by decide)).1

/-- C5: if `register_url` generates a token that is already a key, the
new URL replaces the previous binding (last-write-wins): the single
generate-and-insert returns exactly the generated token with no collision
check, and resolving that token afterwards yields the later URL. -/
theorem C5_collision_last_write_wins (s : Store) (u₀ u : Url)
    (samples : Fin TOKEN_LENGTH → Fin 62)
    (hcol : hmGet s.items (Token.default samples) = some u₀) :
    (s.register_url samples u).1 = Token.default samples ∧
    hmGet ((s.register_url samples u).2).items (Token.default samples) = some u ∧
    ((s.register_url samples u).2).resolve_token
      (Token.default samples).as_str = .ok u := by
  refine ⟨rfl, ?_, ?_⟩
  · exact hmGet_insert_self s.items (Token.default samples) u
  · show Store.resolve_token ⟨hmInsert s.items (Token.default samples) u⟩
      (Token.default samples).chars = .ok u
    have heta : (⟨(Token.default samples).chars⟩ : Token) = Token.default samples := rfl
    simp only [Store.resolve_token, try_from_ok (wf_byteLen (default_wf samples)),
      heta, hmGet_insert_self]

/-- Witness for C5: registering over an existing binding of the same
token replaces it. -/
theorem C5_collision_last_write_wins_witness :
    (storeA.register_url sampleA urlEx2).1 = Token.default sampleA ∧
    hmGet ((storeA.register_url sampleA urlEx2).2).items
      (Token.default sampleA) = some urlEx2 ∧
    ((storeA.register_url sampleA urlEx2).2).resolve_token
      (Token.default sampleA).as_str = .ok urlEx2 :=
  C5_collision_last_write_wins storeA urlEx1 urlEx2 sampleA (by decide)

/-- C6: resolving an input that parses into a token absent from the
mapping fails with `notFound`, on every store state. -/
theorem C6_absent_token_not_found (s : Store) (input : List Char) (t : Token)
    (hparse : Token.try_from input = .ok t)
    (habs : hmGet s.items t = none) :
    s.resolve_token input = .error .notFound := by
  simp only [Store.resolve_token, hparse, habs]

/-- Witness for C6: resolving "123456" on the empty store fails with
`notFound`. -/
theorem C6_absent_token_not_found_witness :
    emptyStore.resolve_token (String.toList "123456") = .error .notFound :=
  C6_absent_token_not_found emptyStore (String.toList "123456")
    ⟨String.toList "123456"⟩ rfl rfl

/-- C7: resolve never mutates the mapping (its receiver is `&self`), and
every operation either leaves the store unchanged or is a registration
whose whole effect is the single committed insert — no failing call
mutates the mapping. -/
theorem C7_resolve_pure_no_partial_failure (s : Store) :
    (∀ input, s.applyOp (Op.resolve input) = s) ∧
    (∀ op, s.applyOp op = s ∨
      ∃ samples url, op = Op.register samples url ∧
        (s.applyOp op).items = hmInsert s.items (Token.default samples) url) := by
  refine ⟨fun _ => rfl, fun op => ?_⟩
  cases op with
  | register samples url => exact Or.inr ⟨samples, url, rfl, rfl⟩
  | resolve input => exact Or.inl rfl

/-- C8: a 6-byte input containing non-alphanumeric characters still
parses successfully (only length is validated), and resolving it on any
store reachable from the empty store fails with `notFound` — never with
the invalid-token error — because every key of a reachable store is
alphanumeric. -/
theorem C8_nonalnum_parses_then_not_found (s : Store) (hs : Reachable s)
    (input : List Char) (hlen : strByteLen input = TOKEN_LENGTH)
    (hbad : ∃ c ∈ input, c.isAlphanum = false) :
    Token.try_from input = .ok ⟨input⟩ ∧
    s.resolve_token input = .error .notFound := by
  have hparse := try_from_ok hlen
  refine ⟨hparse, ?_⟩
  have hnwf : ¬ wfToken (⟨input⟩ : Token) := by
    rintro ⟨-, hall⟩
    obtain ⟨c, hc, hna⟩ := hbad
    have hok := (charset_utf8_alphanum c (hall c hc)).2
    rw [hok] at hna
    cases hna
  have habs : hmGet s.items ⟨input⟩ = none :=
    hmGet_none_of_not_wf (reachable_keys_wf hs) hnwf
  simp only [Store.resolve_token, hparse, habs]

/-- Witness for C8: "!!!!!!" parses and resolves to `notFound` on a
reachable one-entry store. -/
theorem C8_nonalnum_parses_then_not_found_witness :
    Token.try_from (String.toList "!!!!!!") = .ok ⟨String.toList "!!!!!!"⟩ ∧
    storeA.resolve_token (String.toList "!!!!!!") = .error .notFound :=
  C8_nonalnum_parses_then_not_found storeA
    (Reachable.step (Op.register sampleA urlEx1) Reachable.empty)
    (String.toList "!!!!!!") (by decide)
    ⟨'!', by decide, by decide⟩

/-- Counterexample to C9 as stated: with a random source that repeats
its samples across the two registrations, both registrations return the
SAME token, and resolving the first returned token yields the second
URL, not the first — the claimed distinctness and resolution both fail. -/
theorem C9_counterexample_repeated_samples :
    ((emptyStore.register_url sampleA urlEx1).2.register_url sampleA urlEx2).1
      = (emptyStore.register_url sampleA urlEx1).1 ∧
    (((emptyStore.register_url sampleA urlEx1).2.register_url sampleA urlEx2).2).resolve_token
      ((emptyStore.register_url sampleA urlEx1).1).as_str = .ok urlEx2 ∧
    urlEx1 ≠ urlEx2 :=
  ⟨rfl, rfl, by decide⟩

/-- C9 amended: registering two URLs yields distinct tokens and each
token resolves to its own URL, PROVIDED the two generated tokens are
distinct (token generation is random, so sample repetition can make them
equal, in which case last-write-wins applies instead). -/
theorem C9_two_registrations_resolve (s : Store) (u1 u2 : Url)
    (smp1 smp2 : Fin TOKEN_LENGTH → Fin 62)
    (hne : Token.default smp1 ≠ Token.default smp2) :
    (s.register_url smp1 u1).1
      ≠ ((s.register_url smp1 u1).2.register_url smp2 u2).1 ∧
    (((s.register_url smp1 u1).2.register_url smp2 u2).2).resolve_token
      ((s.register_url smp1 u1).1).as_str = .ok u1 ∧
    (((s.register_url smp1 u1).2.register_url smp2 u2).2).resolve_token
      (((s.register_url smp1 u1).2.register_url smp2 u2).1).as_str = .ok u2 := by
  refine ⟨hne, ?_, ?_⟩
  · show Store.resolve_token
      ⟨hmInsert (hmInsert s.items (Token.default smp1) u1) (Token.default smp2) u2⟩
      (Token.default smp1).chars = .ok u1
    have heta : (⟨(Token.default smp1).chars⟩ : Token) = Token.default smp1 := rfl
    simp only [Store.resolve_token, try_from_ok (wf_byteLen (default_wf smp1)), heta,
      hmGet_insert_ne _ _ (Ne.symm hne), hmGet_insert_self]
  · show Store.resolve_token
      ⟨hmInsert (hmInsert s.items (Token.default smp1) u1) (Token.default smp2) u2⟩
      (Token.default smp2).chars = .ok u2
    have heta : (⟨(Token.default smp2).chars⟩ : Token) = Token.default smp2 := rfl
    simp only [Store.resolve_token, try_from_ok (wf_byteLen (default_wf smp2)), heta,
      hmGet_insert_self]

/-- Witness for the amended C9 at two distinct concrete sample sources. -/
theorem C9_two_registrations_resolve_witness :
    (emptyStore.register_url sampleA urlEx1).1
      ≠ ((emptyStore.register_url sampleA urlEx1).2.register_url sampleB urlEx2).1 ∧
    (((emptyStore.register_url sampleA urlEx1).2.register_url sampleB urlEx2).2).resolve_token
      ((emptyStore.register_url sampleA urlEx1).1).as_str = .ok urlEx1 ∧
    (((emptyStore.register_url sampleA urlEx1).2.register_url sampleB urlEx2).2).resolve_token
      (((emptyStore.register_url sampleA urlEx1).2.register_url sampleB urlEx2).1).as_str
      = .ok urlEx2 :=
  C9_two_registrations_resolve emptyStore urlEx1 urlEx2 sampleA sampleB (by decide)

/-- C10: `Token::try_from` measures length in UTF-8 bytes, not
characters: every 6-byte input parses, and every 6-character input
containing a multi-byte character is rejected with the validation
error. -/
theorem C10_length_counts_utf8_bytes (s : List Char) :
    (strByteLen s = TOKEN_LENGTH → Token.try_from s = .ok ⟨s⟩) ∧
    (s.length = TOKEN_LENGTH → (∃ c ∈ s, 2 ≤ Char.utf8Size c) →
      Token.try_from s = .error ⟨TOKEN_LENGTH⟩) := by
  refine ⟨try_from_ok, fun hlen hmb => ?_⟩
  obtain ⟨c, hc, h2⟩ := hmb
  have hgt := byteLen_gt_of_multibyte hc h2
  rw [hlen] at hgt
  have hne : strByteLen s ≠ TOKEN_LENGTH := by omega
  simp [Token.try_from, hne]

/-- Witness for C10: "ééé" is 3 characters but 6 bytes and parses;
"abcdéf" is 6 characters but 7 bytes and is rejected. -/
theorem C10_length_counts_utf8_bytes_witness :
    (String.toList "ééé").length = 3 ∧
    Token.try_from (String.toList "ééé") = .ok ⟨String.toList "ééé"⟩ ∧
    Token.try_from (String.toList "abcdéf") = .error ⟨TOKEN_LENGTH⟩ :=
  ⟨by decide,
   (C10_length_counts_utf8_bytes (String.toList "ééé")).1 (by decide),
   (C10_length_counts_utf8_bytes (String.toList "abcdéf")).2 (by decide)
     ⟨'é', by decide, by decide⟩⟩
